import Mathlib

/-!
# Verification of the deej serial protocol core

Shallow embedding of the deej host/firmware protocol layer:

* `handleLine` / `sliderLoop` — the inbound line decoder, slider-count
  resynchronization and noise-gated move-event emission
  (Go `SerialIO.handleLine`).
* `handleButtonCommand` — the button command dispatcher
  (Go `SerialIO.handleButtonCommand`).
* `shortenAppName` — the 4-character application-label abbreviation
  (Go `shortenAppName`).
* `probeLoop` / `probePort` / `findDeejPort` — serial port discovery
  (Go `serial_finder.go`).
* `encodeAllLEDStates` / `processLSCommand` — the batched LED command
  encoder (Go `SendAllLEDStates`) and the firmware parser
  (Arduino `processCommand`, `#LS:` branch).

Strings from the wire are modelled as `List Char` (the Go code operates on
bytes; for the ASCII data of this protocol the two views coincide).
Floating-point slider values (`float32` in Go) are modelled as rationals.
-/

namespace Deej

/-! ## Characters, digit groups and the telemetry line pattern -/

/-- ASCII digit test, as matched by `\d` in the Go regexp (RE2 `\d` is
`[0-9]`). -/
def isDigitChar (c : Char) : Bool := '0' ≤ c && c ≤ '9'

/-- `strings.Split(s, "|")` on a single-character separator: Go semantics,
so the empty string yields one empty field and a trailing separator yields a
trailing empty field. -/
def splitOnPipe : List Char → List (List Char)
  | [] => [[]]
  | c :: rest =>
    if c = '|' then [] :: splitOnPipe rest
    else
      match splitOnPipe rest with
      | g :: gs => (c :: g) :: gs
      | [] => [[c]]

/-- One `\d{1,4}` group: one to four ASCII digits. -/
def digitGroupOK (g : List Char) : Bool :=
  decide (1 ≤ g.length) && decide (g.length ≤ 4) && g.all isDigitChar

/-- `strings.TrimSuffix l suffix`: drop `suffix` when present, otherwise
return the list unchanged. -/
def trimSuffix (l suffix : List Char) : List Char :=
  if suffix.isSuffixOf l then l.take (l.length - suffix.length) else l

/-- `strings.TrimSuffix line "\r\n"`. -/
def trimSuffixCRLF (line : List Char) : List Char := trimSuffix line ['\r', '\n']

/-- The compiled `expectedLinePattern` regexp
`^\d{1,4}(\|\d{1,4})*\r\n$` as a whole-line matcher: the line must end in
CRLF and the part before it must split on `|` into groups of one to four
digits (so it contains no other characters, matching the anchored regexp). -/
def matchesExpectedLinePattern (line : List Char) : Bool :=
  (['\r', '\n'] : List Char).isSuffixOf line &&
    (splitOnPipe (trimSuffixCRLF line)).all digitGroupOK

/-- `strconv.Atoi` restricted to the digit strings produced by a matched
line (1–4 digits, so no sign handling or overflow arises). -/
def atoiNat (g : List Char) : ℕ :=
  g.foldl (fun a c => a * 10 + (c.toNat - 48)) 0

/-! ## Configuration, tracker state and modelled util functions -/

/-- The configuration fields `handleLine` reads: the slider inversion flag
and the noise-reduction threshold (a normalized-scale delta). -/
structure Config where
  invertSliders : Bool
  noiseReductionLevel : ℚ

/-- Modelled from the spec: `util.NormalizeScalar` is not under `src/`.
The spec and the call-site comment describe it as normalizing the dirty
0–1 scalar "with 2 points of precision", i.e. truncation to two decimal
places. -/
def normalizeScalar (v : ℚ) : ℚ := (⌊v * 100⌋ : ℚ) / 100

/-- Modelled from the spec: `util.SignificantlyDifferent` is not under
`src/`. The spec states that "an event is emitted at step `i` iff
`|v_i − last_accepted| > t`", i.e. only a difference exceeding the
threshold is accepted as a real change. -/
def significantlyDifferent (old new threshold : ℚ) : Bool :=
  decide (|old - new| > threshold)

/-- Raw reading → normalized value, as in the body of `handleLine`'s
slider loop: divide by 1023, normalize, then invert when configured. -/
def computeNormalized (cfg : Config) (n : ℕ) : ℚ :=
  let dirtyFloat : ℚ := (n : ℚ) / 1023
  let normalizedScalar := normalizeScalar dirtyFloat
  if cfg.invertSliders then 1 - normalizedScalar else normalizedScalar

/-- The sentinel `-1.0` written into every slot on a slider-count change
("reset everything to be an impossible value"). -/
def sentinel : ℚ := -1

/-- `SliderMoveEvent`: slider index and new normalized value. -/
structure SliderMoveEvent where
  sliderID : ℕ
  percentValue : ℚ
deriving DecidableEq, Repr

/-- The mutable fields of `SerialIO` that `handleLine` touches:
`lastKnownNumSliders` and `currentSliderPercentValues`. -/
structure SerialState where
  lastKnownNumSliders : ℕ
  currentSliderPercentValues : List ℚ
deriving DecidableEq, Repr

/-- Media-key actions triggered by button commands. -/
inductive ButtonAction
  | playPause
  | prevTrack
  | nextTrack
deriving DecidableEq, Repr

/-- `handleButtonCommand`: trim `"\r\n"` then `"\n"`, require at least
three characters, take everything after `"#B"` and dispatch on it;
unknown identifiers are only logged. -/
def handleButtonCommand (line : List Char) : Option ButtonAction :=
  let l1 := trimSuffix line ['\r', '\n']
  let l2 := trimSuffix l1 ['\n']
  if l2.length < 3 then none
  else
    let buttonID := l2.drop 2
    if buttonID = ['0'] then some .playPause
    else if buttonID = ['1'] then some .prevTrack
    else if buttonID = ['2'] then some .nextTrack
    else none

/-- `strings.HasPrefix(line, "#B")`. -/
def hasButtonMarker : List Char → Bool
  | c1 :: c2 :: _ => c1 = '#' && c2 = 'B'
  | _ => false

/-- The payload that triggers each media-key action in
`handleButtonCommand`'s switch. -/
def buttonPayloadOf : ButtonAction → List Char
  | .playPause => ['0']
  | .prevTrack => ['1']
  | .nextTrack => ['2']

/-! ## The slider loop and `handleLine` -/

/-- The `for sliderIdx, stringValue := range splitLine` loop of
`handleLine`, after `Atoi`. A first value above 1023 aborts the whole
frame (`none`: the Go `return` delivers no events at all); otherwise each
slot is compared against the tracked value and updated exactly when the
difference is significant. Out-of-range reads return `0`, mirroring that
Go never indexes out of range here (the tracked array always has the
frame's length by the time the loop runs). -/
def sliderLoop (cfg : Config) : ℕ → List ℚ → List ℕ →
    Option (List ℚ × List SliderMoveEvent)
  | _, values, [] => some (values, [])
  | idx, values, n :: rest =>
    if idx = 0 ∧ 1023 < n then none
    else
      let ns := computeNormalized cfg n
      if significantlyDifferent (values.getD idx 0) ns cfg.noiseReductionLevel then
        match sliderLoop cfg (idx + 1) (values.set idx ns) rest with
        | some r => some (r.1, ⟨idx, ns⟩ :: r.2)
        | none => none
      else sliderLoop cfg (idx + 1) values rest

/-- The integer tokens of a telemetry line: trim CRLF, split on `|`,
`Atoi` each group. -/
def lineTokens (line : List Char) : List ℕ :=
  (splitOnPipe (trimSuffixCRLF line)).map atoiNat

/-- `SerialIO.handleLine`: button commands are dispatched first; lines
failing the telemetry pattern are ignored; otherwise the slider count is
resynchronized (resetting every slot to the sentinel) and the slider loop
runs. Result: new tracker state, emitted move events in ascending index
order, and the triggered button action if any. -/
def handleLine (cfg : Config) (s : SerialState) (line : List Char) :
    SerialState × List SliderMoveEvent × Option ButtonAction :=
  if hasButtonMarker line then (s, [], handleButtonCommand line)
  else if !matchesExpectedLinePattern line then (s, [], none)
  else
    let tokens := lineTokens line
    let numSliders := tokens.length
    let s1 : SerialState :=
      if numSliders ≠ s.lastKnownNumSliders then
        ⟨numSliders, List.replicate numSliders sentinel⟩
      else s
    match sliderLoop cfg 0 s1.currentSliderPercentValues tokens with
    | none => (s1, [], none)
    | some r => (⟨s1.lastKnownNumSliders, r.1⟩, r.2, none)

/-! ## Application-name abbreviation (`shortenAppName`) -/

/-- The vowel set `"aeiouAEIOU"` used by `shortenAppName`. -/
def isVowel (c : Char) : Bool :=
  c = 'a' || c = 'e' || c = 'i' || c = 'o' || c = 'u' ||
  c = 'A' || c = 'E' || c = 'I' || c = 'O' || c = 'U'

/-- One collection pass of `shortenAppName`: walk the name appending the
characters satisfying `p` to `acc`, stopping as soon as `acc` holds four
characters (the Go loop condition `i < len(name) && len(result) < 4`). -/
def collectPass (p : Char → Bool) : List Char → List Char → List Char
  | [], acc => acc
  | c :: rest, acc =>
    if acc.length < 4 then
      collectPass p rest (if p c then acc ++ [c] else acc)
    else acc

/-- `shortenAppName`: empty name stays empty; otherwise collect up to four
consonants, then top up with the name's vowels in order, and when still
short fall back to the first four raw characters provided the name has at
least four. -/
def shortenAppName (name : List Char) : List Char :=
  if name = [] then []
  else
    let r1 := collectPass (fun c => !isVowel c) name []
    let r2 := if r1.length < 4 then collectPass isVowel name r1 else r1
    if r2.length < 4 ∧ 4 ≤ name.length then name.take 4 else r2

/-- The abbreviation rule in the spec's words (used only to compare
against `shortenAppName`): up to four consonants in original order, topped
up with the name's leading vowels; if still short, the first four raw
characters when the name has at least four, otherwise the collected
characters. -/
def specAbbreviationRule (name : List Char) : List Char :=
  if name = [] then []
  else
    let cons := (name.filter fun c => !isVowel c).take 4
    let collected := cons ++ (name.filter isVowel).take (4 - cons.length)
    if collected.length < 4 ∧ 4 ≤ name.length then name.take 4 else collected

/-! ## Port probing (`serial_finder.go`) -/

/-- `requiredValidLines`: conforming lines needed before a port is
accepted. -/
def requiredValidLines : ℕ := 2

/-- One `conn.Read` outcome inside the probe loop: either bytes (possibly
none, when the 100 ms read timeout fires with `n = 0`) or a read error.
The 2-second wall-clock deadline is modelled by the list of reads being
finite: it holds exactly the reads that complete before the deadline. -/
inductive ReadResult
  | bytes (data : List Char)
  | readError
deriving DecidableEq, Repr

/-- A candidate port as the probe sees it: its identifier, whether
`serial.Open` and `SetReadTimeout` succeed, and the reads it serves before
the deadline. -/
structure CandidatePort where
  name : String
  canOpen : Bool
  reads : List ReadResult

/-- Split accumulated bytes into the complete lines (each including its
terminating `'\n'`) and the remainder after the last line break, exactly
as the probe's inner `strings.Index(accumulated, "\n")` loop does. -/
def extractLines : List Char → List (List Char) × List Char
  | [] => ([], [])
  | c :: rest =>
    if c = '\n' then
      let r := extractLines rest
      ([c] :: r.1, r.2)
    else
      match extractLines rest with
      | (l :: ls, rem) => ((c :: l) :: ls, rem)
      | ([], rem) => ([], c :: rem)

/-- The probe's read loop: `accumulated` carries the partial line across
reads, `validLines` counts conforming lines; a read error breaks the loop
(reject), exhausting the reads means the deadline passed (reject), and the
port is accepted the moment the count reaches `requiredValidLines`. -/
def probeLoop : List Char → ℕ → List ReadResult → Bool
  | _, _, [] => false
  | _, _, .readError :: _ => false
  | accumulated, validLines, .bytes data :: rest =>
    let r := extractLines (accumulated ++ data)
    let v := validLines + r.1.countP matchesExpectedLinePattern
    if requiredValidLines ≤ v then true else probeLoop r.2 v rest

/-- `probePort`: reject ports that fail to open or configure, otherwise
run the read loop. -/
def probePort (p : CandidatePort) : Bool :=
  if !p.canOpen then false else probeLoop [] 0 p.reads

/-- `findDeejPort`: probe candidates in enumeration order, return the
first accepted identifier, or `""` when none is accepted. -/
def findDeejPort : List CandidatePort → String
  | [] => ""
  | p :: rest => if probePort p then p.name else findDeejPort rest

/-! ## Connection start (`SerialIO.Start`) -/

/-- The configured connection parameters `Start` reads. -/
structure ConnectionInfo where
  comPort : String
  baudRate : ℕ

/-- The connection fields of `SerialIO` that `Start` touches. -/
structure ConnState where
  connected : Bool
  comPort : String
  baudRate : ℕ
deriving DecidableEq, Repr

/-- Outcome of `Start`: the typed error for a second concurrent start, the
wrapped open failure, or success. -/
inductive StartOutcome
  | alreadyActive
  | openFailed
  | started
deriving DecidableEq, Repr

/-- `SerialIO.Start`, with `serial.Open`'s success and `SetDTR`'s success
as oracles (both are environment interactions). Returns the outcome, the
resulting connection state, and whether the read-loop goroutine was
spawned. A DTR failure is logged but non-fatal, so `dtrSucceeds` does not
influence the result. -/
def start (info : ConnectionInfo) (openSucceeds dtrSucceeds : Bool)
    (s : ConnState) : StartOutcome × ConnState × Bool :=
  if s.connected then (.alreadyActive, s, false)
  else
    let s1 : ConnState := { s with comPort := info.comPort, baudRate := info.baudRate }
    if !openSucceeds then (.openFailed, s1, false)
    else
      let _ := dtrSucceeds
      (.started, { s1 with connected := true }, true)

/-! ## Batched LED commands: host encoder and firmware parser -/

/-- `NUM_SLIDERS` in the firmware sketch the claims cite. -/
def numSlidersFirmware : ℕ := 4

/-- `strings.Join(strs, ",")`. -/
def joinComma : List (List Char) → List Char
  | [] => []
  | [x] => x
  | x :: xs => x ++ ',' :: joinComma xs

/-- `SendAllLEDStates`' command body: `"#LS:"`, the comma-joined `0`/`1`
states in slider-index order, and the terminating newline. -/
def encodeAllLEDStates (states : List Bool) : List Char :=
  '#' :: 'L' :: 'S' :: ':' ::
    (joinComma (states.map fun b => if b then ['1'] else ['0']) ++ ['\n'])

/-- The firmware's skip-to-next-value step: advance past the current
token (`while (*ptr != '\0' && *ptr != ',') ptr++`) and past the comma
when one follows. -/
def skipPastComma (l : List Char) : List Char :=
  (l.dropWhile fun c => c ≠ ',').drop 1

/-- The firmware's `#LS:` parsing loop: read the first character of each
comma-separated token as a state (`*ptr != '0'`), writing at most
`cap = NUM_SLIDERS` states; returns the list of states written to
`ledStates[0], ledStates[1], …` in order. -/
def parseLEDList : ℕ → List Char → List Bool
  | 0, _ => []
  | _ + 1, [] => []
  | cap + 1, c :: rest =>
    (c ≠ '0') :: parseLEDList cap (skipPastComma (c :: rest))

/-- The firmware's serial framer (`checkSerialInput`), for a line holding
one command followed by its terminator: the command is the received
characters up to the first `'\n'` or `'\r'`, accepted only when it starts
with `'#'` (the framer only begins buffering at a `'#'` with
`inputIndex == 0`). The 48-byte input buffer holds the command plus its
NUL terminator, and characters are appended only while `inputIndex < 47`,
so a command of 48 or more pre-terminator characters hits the overflow
reset and is discarded (`none`) without ever reaching `processCommand`. -/
def deviceFrameLine (line : List Char) : Option (List Char) :=
  let cmd := line.takeWhile fun c => c ≠ '\n' ∧ c ≠ '\r'
  if cmd.head? = some '#' ∧ cmd.length ≤ 47 then some cmd else none

/-- The `#LS:` dispatch of the firmware's `processCommand`: commands with
the `#LS:` prefix reach the batched LED parsing loop (every earlier branch
of `processCommand` tests characters that rule such commands out), other
commands do not. -/
def processLSCommand (cmd : List Char) : Option (List Bool) :=
  match cmd with
  | c1 :: c2 :: c3 :: c4 :: rest =>
    if c1 = '#' ∧ c2 = 'L' ∧ c3 = 'S' ∧ c4 = ':' then
      some (parseLEDList numSlidersFirmware rest)
    else none
  | _ => none

/-! ## Basic lemmas about lines and tokens -/

theorem splitOnPipe_ne_nil (l : List Char) : splitOnPipe l ≠ [] := by
  cases l with
  | nil => simp [splitOnPipe]
  | cons c rest =>
    simp only [splitOnPipe]
    split
    · simp
    · split <;> simp

theorem head_digit_of_all_groups {c : Char} {rest : List Char}
    (h : (splitOnPipe (c :: rest)).all digitGroupOK = true) :
    isDigitChar c = true := by
  by_cases hc : c = '|'
  · subst hc; simp [splitOnPipe, digitGroupOK] at h
  · rcases hsp : splitOnPipe rest with _ | ⟨g, gs⟩
    · exact absurd hsp (splitOnPipe_ne_nil rest)
    · rw [splitOnPipe, if_neg hc, hsp] at h
      simp only [List.all_cons, Bool.and_eq_true, digitGroupOK] at h
      exact h.1.2.1

theorem trimSuffixCRLF_cons (c : Char) (rest : List Char) :
    trimSuffixCRLF (c :: rest) = [] ∨
      ∃ t, trimSuffixCRLF (c :: rest) = c :: t := by
  unfold trimSuffixCRLF trimSuffix
  split
  · cases h : (c :: rest).length - (['\r', '\n'] : List Char).length with
    | zero => left; simp [h]
    | succ k => right; exact ⟨List.take k rest, List.take_succ_cons⟩
  · right; exact ⟨rest, rfl⟩

theorem matches_head_digit {line : List Char}
    (h : matchesExpectedLinePattern line = true) :
    ∃ c rest, line = c :: rest ∧ isDigitChar c = true := by
  cases line with
  | nil => simp [matchesExpectedLinePattern, List.isSuffixOf] at h
  | cons c rest =>
    refine ⟨c, rest, rfl, ?_⟩
    unfold matchesExpectedLinePattern at h
    rw [Bool.and_eq_true] at h
    rcases trimSuffixCRLF_cons c rest with h0 | ⟨t, ht⟩
    · rw [h0] at h
      simp [splitOnPipe, digitGroupOK] at h
    · rw [ht] at h
      exact head_digit_of_all_groups h.2

theorem marker_false_of_matches {line : List Char}
    (h : matchesExpectedLinePattern line = true) :
    hasButtonMarker line = false := by
  obtain ⟨c, rest, rfl, hd⟩ := matches_head_digit h
  cases rest with
  | nil => rfl
  | cons c2 t =>
    show (decide (c = '#') && decide (c2 = 'B')) = false
    have hc : c ≠ '#' := by
      intro hc
      subst hc
      simp [isDigitChar] at hd
    simp [hc]

theorem lineTokens_ne_nil (line : List Char) : lineTokens line ≠ [] := by
  intro h
  exact splitOnPipe_ne_nil _ (List.map_eq_nil_iff.mp h)

theorem handleLine_eq_telemetry (cfg : Config) (s : SerialState)
    (line : List Char) (hm : matchesExpectedLinePattern line = true) :
    handleLine cfg s line =
      (let tokens := lineTokens line
       let s1 : SerialState :=
         if tokens.length ≠ s.lastKnownNumSliders then
           ⟨tokens.length, List.replicate tokens.length sentinel⟩
         else s
       match sliderLoop cfg 0 s1.currentSliderPercentValues tokens with
       | none => (s1, [], none)
       | some r => (⟨s1.lastKnownNumSliders, r.1⟩, r.2, none)) := by
  simp [handleLine, marker_false_of_matches hm, hm]

theorem sliderLoop_zero_corrupt (cfg : Config) (values : List ℚ)
    (n : ℕ) (rest : List ℕ) (h : 1023 < n) :
    sliderLoop cfg 0 values (n :: rest) = none := by
  simp [sliderLoop, h]

/-! ## The slider loop without the corruption guard -/

/-- `sliderLoop` with the first-value corruption guard removed; on frames
whose first value is at most 1023 the two agree
(`sliderLoop_eq_NC_of_first_le`). -/
def sliderLoopNC (cfg : Config) : ℕ → List ℚ → List ℕ →
    List ℚ × List SliderMoveEvent
  | _, values, [] => (values, [])
  | idx, values, n :: rest =>
    let ns := computeNormalized cfg n
    if significantlyDifferent (values.getD idx 0) ns cfg.noiseReductionLevel then
      let r := sliderLoopNC cfg (idx + 1) (values.set idx ns) rest
      (r.1, ⟨idx, ns⟩ :: r.2)
    else sliderLoopNC cfg (idx + 1) values rest

theorem sliderLoop_eq_NC_of_pos (cfg : Config) (tokens : List ℕ) :
    ∀ (idx : ℕ) (values : List ℚ), idx ≠ 0 →
    sliderLoop cfg idx values tokens =
      some (sliderLoopNC cfg idx values tokens) := by
  induction tokens with
  | nil => intro idx values _; rfl
  | cons n rest ih =>
    intro idx values h
    simp only [sliderLoop, sliderLoopNC]
    rw [if_neg (by simp [h] : ¬(idx = 0 ∧ 1023 < n))]
    by_cases hs : significantlyDifferent (values.getD idx 0)
        (computeNormalized cfg n) cfg.noiseReductionLevel = true
    · rw [if_pos hs, if_pos hs, ih (idx + 1) _ (by omega)]
    · rw [if_neg hs, if_neg hs]
      exact ih (idx + 1) _ (by omega)

theorem sliderLoop_eq_NC_of_first_le (cfg : Config) (n : ℕ) (rest : List ℕ)
    (values : List ℚ) (h : n ≤ 1023) :
    sliderLoop cfg 0 values (n :: rest) =
      some (sliderLoopNC cfg 0 values (n :: rest)) := by
  simp only [sliderLoop, sliderLoopNC]
  rw [if_neg (by simp [Nat.not_lt.mpr h])]
  by_cases hs : significantlyDifferent (values.getD 0 0)
      (computeNormalized cfg n) cfg.noiseReductionLevel = true
  · rw [if_pos hs, if_pos hs, sliderLoop_eq_NC_of_pos cfg rest 1 _ one_ne_zero]
  · rw [if_neg hs, if_neg hs]
    exact sliderLoop_eq_NC_of_pos cfg rest 1 _ one_ne_zero

theorem sliderLoopNC_length (cfg : Config) (tokens : List ℕ) :
    ∀ (idx : ℕ) (values : List ℚ),
    (sliderLoopNC cfg idx values tokens).1.length = values.length := by
  induction tokens with
  | nil => intro idx values; rfl
  | cons n rest ih =>
    intro idx values
    simp only [sliderLoopNC]
    by_cases hs : significantlyDifferent (values.getD idx 0)
        (computeNormalized cfg n) cfg.noiseReductionLevel = true
    · rw [if_pos hs]
      show (sliderLoopNC cfg (idx + 1) _ rest).1.length = values.length
      rw [ih (idx + 1) _, List.length_set]
    · rw [if_neg hs]
      exact ih (idx + 1) values

theorem sliderLoopNC_frame (cfg : Config) (tokens : List ℕ) :
    ∀ (idx : ℕ) (values : List ℚ) (k : ℕ),
    (k < idx ∨ idx + tokens.length ≤ k) →
    (sliderLoopNC cfg idx values tokens).1.getD k 0 = values.getD k 0 := by
  induction tokens with
  | nil => intro idx values k _; rfl
  | cons n rest ih =>
    intro idx values k hk
    have hk' : k < idx + 1 ∨ (idx + 1) + rest.length ≤ k := by
      rcases hk with h | h
      · left; omega
      · right; simp only [List.length_cons] at h; omega
    have hkne : idx ≠ k := by
      rcases hk with h | h
      · omega
      · simp only [List.length_cons] at h; omega
    simp only [sliderLoopNC]
    by_cases hs : significantlyDifferent (values.getD idx 0)
        (computeNormalized cfg n) cfg.noiseReductionLevel = true
    · rw [if_pos hs]
      show (sliderLoopNC cfg (idx + 1) _ rest).1.getD k 0 = values.getD k 0
      rw [ih (idx + 1) _ k hk']
      rw [List.getD_eq_getElem?_getD, List.getD_eq_getElem?_getD,
        List.getElem?_set_ne hkne]
    · rw [if_neg hs]
      exact ih (idx + 1) values k hk'

theorem sliderLoopNC_event_indices (cfg : Config) (tokens : List ℕ) :
    ∀ (idx : ℕ) (values : List ℚ) (e : SliderMoveEvent),
    e ∈ (sliderLoopNC cfg idx values tokens).2 →
    idx ≤ e.sliderID ∧ e.sliderID < idx + tokens.length := by
  induction tokens with
  | nil => intro idx values e he; simp [sliderLoopNC] at he
  | cons n rest ih =>
    intro idx values e he
    simp only [sliderLoopNC] at he
    by_cases hs : significantlyDifferent (values.getD idx 0)
        (computeNormalized cfg n) cfg.noiseReductionLevel = true
    · rw [if_pos hs] at he
      have he' : e ∈ SliderMoveEvent.mk idx (computeNormalized cfg n) ::
          (sliderLoopNC cfg (idx + 1)
            (values.set idx (computeNormalized cfg n)) rest).2 := he
      rcases List.mem_cons.mp he' with rfl | hmem
      · refine ⟨Nat.le_refl idx, ?_⟩
        show idx < idx + (n :: rest).length
        simp only [List.length_cons]
        omega
      · obtain ⟨h1, h2⟩ := ih (idx + 1) _ e hmem
        refine ⟨by omega, ?_⟩
        simp only [List.length_cons]
        omega
    · rw [if_neg hs] at he
      obtain ⟨h1, h2⟩ := ih (idx + 1) values e he
      refine ⟨by omega, ?_⟩
      simp only [List.length_cons]
      omega

theorem sliderLoopNC_per_index (cfg : Config) (tokens : List ℕ) :
    ∀ (idx : ℕ) (values : List ℚ),
    idx + tokens.length ≤ values.length →
    ∀ j, j < tokens.length →
    ((sliderLoopNC cfg idx values tokens).2.filter
        (fun e => e.sliderID == idx + j) =
      (if significantlyDifferent (values.getD (idx + j) 0)
          (computeNormalized cfg (tokens.getD j 0)) cfg.noiseReductionLevel
       then [⟨idx + j, computeNormalized cfg (tokens.getD j 0)⟩] else [])) ∧
    ((sliderLoopNC cfg idx values tokens).1.getD (idx + j) 0 =
      (if significantlyDifferent (values.getD (idx + j) 0)
          (computeNormalized cfg (tokens.getD j 0)) cfg.noiseReductionLevel
       then computeNormalized cfg (tokens.getD j 0)
       else values.getD (idx + j) 0)) := by
  induction tokens with
  | nil => intro idx values _ j hj; exact absurd hj (by simp)
  | cons n rest ih =>
    intro idx values hlen j hj
    have hidxlt : idx < values.length := by
      simp only [List.length_cons] at hlen; omega
    simp only [sliderLoopNC]
    by_cases hs : significantlyDifferent (values.getD idx 0)
        (computeNormalized cfg n) cfg.noiseReductionLevel = true
    · rw [if_pos hs]
      cases j with
      | zero =>
        have hnil : (sliderLoopNC cfg (idx + 1)
            (values.set idx (computeNormalized cfg n)) rest).2.filter
            (fun e => e.sliderID == idx + 0) = [] := by
          rw [List.filter_eq_nil_iff]
          intro e he
          have h1 := sliderLoopNC_event_indices cfg rest (idx + 1) _ e he
          simp only [beq_iff_eq]
          omega
        simp only [Nat.add_zero, List.getD_cons_zero, hs, if_true]
        simp only [Nat.add_zero] at hnil
        constructor
        · show List.filter (fun e => e.sliderID == idx)
            (SliderMoveEvent.mk idx (computeNormalized cfg n) ::
              (sliderLoopNC cfg (idx + 1)
                (values.set idx (computeNormalized cfg n)) rest).2) = _
          rw [List.filter_cons]
          simp only [beq_self_eq_true, if_true, hnil]
        · show (sliderLoopNC cfg (idx + 1)
            (values.set idx (computeNormalized cfg n)) rest).1.getD idx 0 = _
          rw [sliderLoopNC_frame cfg rest (idx + 1) _ idx (Or.inl (by omega))]
          rw [List.getD_eq_getElem?_getD, List.getElem?_set_self hidxlt]
          rfl
      | succ jj =>
        have hlen' : (idx + 1) + rest.length ≤
            (values.set idx (computeNormalized cfg n)).length := by
          rw [List.length_set]
          simp only [List.length_cons] at hlen
          omega
        have hj' : jj < rest.length := by
          simp only [List.length_cons] at hj; omega
        have ihs := ih (idx + 1) (values.set idx (computeNormalized cfg n))
          hlen' jj hj'
        have hold : (values.set idx (computeNormalized cfg n)).getD
            (idx + 1 + jj) 0 = values.getD (idx + 1 + jj) 0 := by
          rw [List.getD_eq_getElem?_getD, List.getD_eq_getElem?_getD,
            List.getElem?_set_ne (by omega : idx ≠ idx + 1 + jj)]
        rw [hold] at ihs
        have harith : idx + (jj + 1) = idx + 1 + jj := by omega
        rw [harith, List.getD_cons_succ]
        refine ⟨?_, ihs.2⟩
        show List.filter (fun e => e.sliderID == idx + 1 + jj)
          (SliderMoveEvent.mk idx (computeNormalized cfg n) ::
            (sliderLoopNC cfg (idx + 1)
              (values.set idx (computeNormalized cfg n)) rest).2) = _
        rw [List.filter_cons]
        have hhead : ((⟨idx, computeNormalized cfg n⟩ :
            SliderMoveEvent).sliderID == idx + 1 + jj) = false := by
          simp only [beq_eq_false_iff_ne, ne_eq]
          omega
        rw [hhead]
        simp only [Bool.false_eq_true, if_false]
        exact ihs.1
    · rw [if_neg hs]
      cases j with
      | zero =>
        have hnil : (sliderLoopNC cfg (idx + 1) values rest).2.filter
            (fun e => e.sliderID == idx) = [] := by
          rw [List.filter_eq_nil_iff]
          intro e he
          have h1 := sliderLoopNC_event_indices cfg rest (idx + 1) values e he
          simp only [beq_iff_eq]
          omega
        have hsf : significantlyDifferent (values.getD idx 0)
            (computeNormalized cfg n) cfg.noiseReductionLevel = false :=
          (Bool.not_eq_true _).mp hs
        simp only [Nat.add_zero, List.getD_cons_zero, hsf, if_false,
          Bool.false_eq_true]
        constructor
        · exact hnil
        · exact sliderLoopNC_frame cfg rest (idx + 1) values idx
            (Or.inl (by omega))
      | succ jj =>
        have hlen' : (idx + 1) + rest.length ≤ values.length := by
          simp only [List.length_cons] at hlen; omega
        have hj' : jj < rest.length := by
          simp only [List.length_cons] at hj; omega
        have ihs := ih (idx + 1) values hlen' jj hj'
        have harith : idx + (jj + 1) = idx + 1 + jj := by omega
        rw [harith, List.getD_cons_succ]
        exact ihs

theorem handleLine_no_resync (cfg : Config) (s : SerialState)
    (line : List Char) (hm : matchesExpectedLinePattern line = true)
    (hcount : (lineTokens line).length = s.lastKnownNumSliders) :
    handleLine cfg s line =
      (match sliderLoop cfg 0 s.currentSliderPercentValues (lineTokens line) with
       | none => (s, [], none)
       | some r => (⟨s.lastKnownNumSliders, r.1⟩, r.2, none)) := by
  simp [handleLine, marker_false_of_matches hm, hm, hcount]

theorem handleLine_no_resync_some (cfg : Config) (s : SerialState)
    (line : List Char) (hm : matchesExpectedLinePattern line = true)
    (hcount : (lineTokens line).length = s.lastKnownNumSliders)
    {r : List ℚ × List SliderMoveEvent}
    (hr : sliderLoop cfg 0 s.currentSliderPercentValues (lineTokens line) =
      some r) :
    handleLine cfg s line = (⟨s.lastKnownNumSliders, r.1⟩, r.2, none) := by
  rw [handleLine_no_resync cfg s line hm hcount, hr]

theorem handleLine_resync (cfg : Config) (s : SerialState)
    (line : List Char) (hm : matchesExpectedLinePattern line = true)
    (hne : (lineTokens line).length ≠ s.lastKnownNumSliders) :
    handleLine cfg s line =
      (match sliderLoop cfg 0
          (List.replicate (lineTokens line).length sentinel)
          (lineTokens line) with
       | none => (⟨(lineTokens line).length,
           List.replicate (lineTokens line).length sentinel⟩, [], none)
       | some r => (⟨(lineTokens line).length, r.1⟩, r.2, none)) := by
  simp [handleLine, marker_false_of_matches hm, hm, hne]

theorem handleLine_resync_some (cfg : Config) (s : SerialState)
    (line : List Char) (hm : matchesExpectedLinePattern line = true)
    (hne : (lineTokens line).length ≠ s.lastKnownNumSliders)
    {r : List ℚ × List SliderMoveEvent}
    (hr : sliderLoop cfg 0
        (List.replicate (lineTokens line).length sentinel)
        (lineTokens line) = some r) :
    handleLine cfg s line =
      (⟨(lineTokens line).length, r.1⟩, r.2, none) := by
  rw [handleLine_resync cfg s line hm hne, hr]

theorem significantlyDifferent_iff (old new t : ℚ) :
    significantlyDifferent old new t = true ↔ |old - new| > t := by
  simp [significantlyDifferent]

/-! ## C1: the noise gate, per slider index -/

/-- C1: on a telemetry frame whose token count equals the tracked slider
count (and whose first value is not corrupt), a SliderMoveEvent for index
`j` is emitted iff the absolute difference between the new normalized
value and the last-accepted value exceeds the noise threshold, and the
stored value for `j` becomes the new value exactly when the event is
emitted, staying unchanged otherwise. -/
theorem noise_gate_per_index (cfg : Config) (s : SerialState)
    (line : List Char) (hm : matchesExpectedLinePattern line = true)
    (hcount : (lineTokens line).length = s.lastKnownNumSliders)
    (hinv : s.currentSliderPercentValues.length = s.lastKnownNumSliders)
    (hfirst : (lineTokens line).getD 0 0 ≤ 1023)
    (j : ℕ) (hj : j < (lineTokens line).length) :
    ((handleLine cfg s line).2.1.filter (fun e => e.sliderID == j) =
      (if |s.currentSliderPercentValues.getD j 0 -
            computeNormalized cfg ((lineTokens line).getD j 0)| >
          cfg.noiseReductionLevel
       then [⟨j, computeNormalized cfg ((lineTokens line).getD j 0)⟩]
       else [])) ∧
    ((handleLine cfg s line).1.currentSliderPercentValues.getD j 0 =
      (if |s.currentSliderPercentValues.getD j 0 -
            computeNormalized cfg ((lineTokens line).getD j 0)| >
          cfg.noiseReductionLevel
       then computeNormalized cfg ((lineTokens line).getD j 0)
       else s.currentSliderPercentValues.getD j 0)) := by
  obtain ⟨n, rest, htok⟩ : ∃ n rest, lineTokens line = n :: rest := by
    rcases h : lineTokens line with _ | ⟨n, rest⟩
    · exact absurd h (lineTokens_ne_nil line)
    · exact ⟨n, rest, rfl⟩
  rw [htok, List.getD_cons_zero] at hfirst
  have hsl : sliderLoop cfg 0 s.currentSliderPercentValues (lineTokens line) =
      some (sliderLoopNC cfg 0 s.currentSliderPercentValues (lineTokens line)) := by
    rw [htok]
    exact sliderLoop_eq_NC_of_first_le cfg n rest _ hfirst
  rw [handleLine_no_resync_some cfg s line hm hcount hsl]
  dsimp only
  have hlen : 0 + (lineTokens line).length ≤
      s.currentSliderPercentValues.length := by
    rw [hinv, ← hcount]; omega
  have hper := sliderLoopNC_per_index cfg (lineTokens line) 0
    s.currentSliderPercentValues hlen j hj
  rw [Nat.zero_add] at hper
  simp only [significantlyDifferent_iff] at hper
  exact hper

theorem c1_witness :
    ((handleLine ⟨false, 1/100⟩ ⟨2, [0, 1/2]⟩ "512|512\r\n".toList).2.1.filter
        (fun e => e.sliderID == 0) =
      (if |([(0 : ℚ), 1/2]).getD 0 0 -
            computeNormalized ⟨false, 1/100⟩
              ((lineTokens "512|512\r\n".toList).getD 0 0)| >
          (1/100 : ℚ)
       then [⟨0, computeNormalized ⟨false, 1/100⟩
          ((lineTokens "512|512\r\n".toList).getD 0 0)⟩]
       else [])) ∧
    ((handleLine ⟨false, 1/100⟩ ⟨2, [0, 1/2]⟩
        "512|512\r\n".toList).1.currentSliderPercentValues.getD 0 0 =
      (if |([(0 : ℚ), 1/2]).getD 0 0 -
            computeNormalized ⟨false, 1/100⟩
              ((lineTokens "512|512\r\n".toList).getD 0 0)| >
          (1/100 : ℚ)
       then computeNormalized ⟨false, 1/100⟩
          ((lineTokens "512|512\r\n".toList).getD 0 0)
       else ([(0 : ℚ), 1/2]).getD 0 0)) :=
  noise_gate_per_index ⟨false, 1/100⟩ ⟨2, [0, 1/2]⟩ "512|512\r\n".toList
    (by decide) (by decide) (by decide) (by decide) 0 (by decide)

/-! ## C2: a slider-count change forces one event per index -/

theorem computeNormalized_mem_Icc (cfg : Config) {n : ℕ} (h : n ≤ 1023) :
    0 ≤ computeNormalized cfg n ∧ computeNormalized cfg n ≤ 1 := by
  have hq : (0 : ℚ) ≤ (n : ℚ) / 1023 := by positivity
  have hq1 : (n : ℚ) / 1023 ≤ 1 := by
    rw [div_le_one (by norm_num)]
    exact_mod_cast h
  have hf0 : (0 : ℚ) ≤ normalizeScalar ((n : ℚ) / 1023) := by
    unfold normalizeScalar
    apply div_nonneg _ (by norm_num)
    exact_mod_cast Int.floor_nonneg.mpr (by positivity)
  have hf1 : normalizeScalar ((n : ℚ) / 1023) ≤ 1 := by
    unfold normalizeScalar
    rw [div_le_one (by norm_num)]
    have hle : ((n : ℚ) / 1023) * 100 ≤ 100 := by nlinarith
    have hfl := Int.floor_le_floor hle
    rw [show ⌊(100 : ℚ)⌋ = 100 by norm_num] at hfl
    exact_mod_cast hfl
  unfold computeNormalized
  by_cases hi : cfg.invertSliders
  · simp only [hi, if_true]
    constructor <;> linarith
  · simp only [hi, Bool.false_eq_true, if_false]
    exact ⟨hf0, hf1⟩

theorem sliderLoopNC_all_emit (cfg : Config)
    (ht1 : cfg.noiseReductionLevel < 1) (tokens : List ℕ) :
    ∀ (idx : ℕ) (values : List ℚ),
    (∀ j, j < tokens.length → values.getD (idx + j) 0 = sentinel) →
    (∀ n ∈ tokens, n ≤ 1023) →
    (sliderLoopNC cfg idx values tokens).2 =
      (List.enumFrom idx tokens).map
        (fun p => ⟨p.1, computeNormalized cfg p.2⟩) := by
  induction tokens with
  | nil => intro idx values _ _; rfl
  | cons n rest ih =>
    intro idx values hsent hle
    have hns := computeNormalized_mem_Icc cfg (hle n (List.mem_cons_self n rest))
    have hold : values.getD idx 0 = sentinel := by
      simpa using hsent 0 (by simp)
    have hsig : significantlyDifferent (values.getD idx 0)
        (computeNormalized cfg n) cfg.noiseReductionLevel = true := by
      rw [hold, significantlyDifferent_iff]
      unfold sentinel
      have habs : |(-1 : ℚ) - computeNormalized cfg n| =
          1 + computeNormalized cfg n := by
        rw [abs_of_nonpos (by linarith [hns.1])]
        ring
      rw [habs]
      linarith [hns.1]
    simp only [sliderLoopNC, if_pos hsig]
    rw [List.enumFrom_cons, List.map_cons]
    show SliderMoveEvent.mk idx (computeNormalized cfg n) ::
        (sliderLoopNC cfg (idx + 1)
          (values.set idx (computeNormalized cfg n)) rest).2 = _
    congr 1
    apply ih (idx + 1) (values.set idx (computeNormalized cfg n))
    · intro j hjr
      have hset : (values.set idx (computeNormalized cfg n)).getD
          (idx + 1 + j) 0 = values.getD (idx + 1 + j) 0 := by
        rw [List.getD_eq_getElem?_getD, List.getD_eq_getElem?_getD,
          List.getElem?_set_ne (by omega : idx ≠ idx + 1 + j)]
      rw [hset, show idx + 1 + j = idx + (j + 1) by omega]
      exact hsent (j + 1) (by simp only [List.length_cons]; omega)
    · intro m hmem
      exact hle m (List.mem_cons_of_mem n hmem)

/-- C2: a valid (non-corrupt, in-range) telemetry frame whose token count
differs from the tracked slider count records the new count and emits
exactly one SliderMoveEvent per slider index of the frame in ascending
order, regardless of how close the frame's values are to the previously
tracked values (the reset-to-sentinel forces every comparison to pass for
any noise threshold below 1). -/
theorem count_change_emits_all (cfg : Config) (s : SerialState)
    (line : List Char) (hm : matchesExpectedLinePattern line = true)
    (hne : (lineTokens line).length ≠ s.lastKnownNumSliders)
    (hall : ∀ n ∈ lineTokens line, n ≤ 1023)
    (ht1 : cfg.noiseReductionLevel < 1) :
    (handleLine cfg s line).1.lastKnownNumSliders = (lineTokens line).length ∧
    (handleLine cfg s line).2.1 =
      (lineTokens line).enum.map
        (fun p => ⟨p.1, computeNormalized cfg p.2⟩) := by
  obtain ⟨n, rest, htok⟩ : ∃ n rest, lineTokens line = n :: rest := by
    rcases h : lineTokens line with _ | ⟨n, rest⟩
    · exact absurd h (lineTokens_ne_nil line)
    · exact ⟨n, rest, rfl⟩
  have hfirst : n ≤ 1023 := hall n (by rw [htok]; exact List.mem_cons_self n rest)
  have hsl : sliderLoop cfg 0
      (List.replicate (lineTokens line).length sentinel) (lineTokens line) =
      some (sliderLoopNC cfg 0
        (List.replicate (lineTokens line).length sentinel)
        (lineTokens line)) := by
    rw [htok]
    exact sliderLoop_eq_NC_of_first_le cfg n rest _ hfirst
  rw [handleLine_resync_some cfg s line hm hne hsl]
  dsimp only
  refine ⟨rfl, ?_⟩
  have hemit := sliderLoopNC_all_emit cfg ht1 (lineTokens line) 0
    (List.replicate (lineTokens line).length sentinel)
    (fun j hj => by
      rw [Nat.zero_add, List.getD_eq_getElem?_getD, List.getElem?_replicate,
        if_pos hj]
      rfl)
    hall
  rw [hemit, List.enum_eq_enumFrom]

theorem c2_witness :
    (handleLine ⟨false, 1/100⟩ ⟨1, [1/2]⟩
        "0|1023\r\n".toList).1.lastKnownNumSliders =
      (lineTokens "0|1023\r\n".toList).length ∧
    (handleLine ⟨false, 1/100⟩ ⟨1, [1/2]⟩ "0|1023\r\n".toList).2.1 =
      (lineTokens "0|1023\r\n".toList).enum.map
        (fun p => ⟨p.1, computeNormalized ⟨false, 1/100⟩ p.2⟩) :=
  count_change_emits_all ⟨false, 1/100⟩ ⟨1, [1/2]⟩ "0|1023\r\n".toList
    (by decide) (by decide) (by decide) (by norm_num)

/-! ## C3, C4, C9: frames dropped as corrupt or ignored as malformed -/

/-- C3: a line matching the telemetry pattern whose first integer value
exceeds 1023 emits zero SliderMoveEvents, regardless of the remaining
tokens. -/
theorem corrupt_first_value_emits_no_events (cfg : Config) (s : SerialState)
    (line : List Char) (hm : matchesExpectedLinePattern line = true)
    (hfirst : 1023 < (lineTokens line).getD 0 0) :
    (handleLine cfg s line).2.1 = [] := by
  rw [handleLine_eq_telemetry cfg s line hm]
  rcases htok : lineTokens line with _ | ⟨n, rest⟩
  · exact absurd htok (lineTokens_ne_nil line)
  · rw [htok] at hfirst
    rw [List.getD_cons_zero] at hfirst
    simp only [htok, sliderLoop_zero_corrupt cfg _ n rest hfirst]

theorem c3_witness :
    (handleLine ⟨false, 1/100⟩ ⟨1, [0]⟩ "9999\r\n".toList).2.1 = [] :=
  corrupt_first_value_emits_no_events ⟨false, 1/100⟩ ⟨1, [0]⟩
    "9999\r\n".toList (by decide) (by decide)

/-- C4: a line that neither starts with `#B` nor matches the telemetry
pattern is a silent no-op: the decoder is total (no error channel), emits
no event and leaves the tracked state unchanged. -/
theorem malformed_line_silent_noop (cfg : Config) (s : SerialState)
    (line : List Char) (hb : hasButtonMarker line = false)
    (hm : matchesExpectedLinePattern line = false) :
    handleLine cfg s line = (s, [], none) := by
  simp [handleLine, hb, hm]

theorem c4_witness :
    handleLine ⟨false, 1/100⟩ ⟨2, [0, 1]⟩ "noise 512|x\n".toList =
      (⟨2, [0, 1]⟩, [], none) :=
  malformed_line_silent_noop ⟨false, 1/100⟩ ⟨2, [0, 1]⟩
    "noise 512|x\n".toList (by decide) (by decide)

/-- C9: a corrupt frame (first value above 1023) whose token count differs
from the tracked count still records the new count and resets every slot
to the sentinel before being dropped with zero events: the resynchronization
runs before the corruption check. -/
theorem corrupt_frame_still_resyncs (cfg : Config) (s : SerialState)
    (line : List Char) (hm : matchesExpectedLinePattern line = true)
    (hne : (lineTokens line).length ≠ s.lastKnownNumSliders)
    (hfirst : 1023 < (lineTokens line).getD 0 0) :
    handleLine cfg s line =
      (⟨(lineTokens line).length,
        List.replicate (lineTokens line).length sentinel⟩, [], none) := by
  rw [handleLine_eq_telemetry cfg s line hm]
  rcases htok : lineTokens line with _ | ⟨n, rest⟩
  · exact absurd htok (lineTokens_ne_nil line)
  · rw [htok] at hfirst hne
    rw [List.getD_cons_zero] at hfirst
    simp only [htok, if_pos hne, sliderLoop_zero_corrupt cfg _ n rest hfirst]

theorem c9_witness :
    handleLine ⟨false, 1/100⟩ ⟨3, [0, 0, 0]⟩ "2000|25\r\n".toList =
      (⟨2, [-1, -1]⟩, [], none) := by
  have h := corrupt_frame_still_resyncs ⟨false, 1/100⟩ ⟨3, [0, 0, 0]⟩
    "2000|25\r\n".toList (by decide) (by decide) (by decide)
  simpa using h

/-! ## C10: button command dispatch -/

/-- C10: a `#B`-prefixed line never reaches the telemetry path (state and
move events untouched), and a media-key action fires iff the payload after
`#B`, with trailing line terminators stripped, is exactly `0`, `1` or `2`;
every other payload (including the empty one) yields no action and no
error. -/
theorem button_line_dispatch (cfg : Config) (s : SerialState)
    (line : List Char) (hb : hasButtonMarker line = true) :
    handleLine cfg s line = (s, [], handleButtonCommand line) ∧
    ∀ a : ButtonAction,
      (handleButtonCommand line = some a ↔
        (trimSuffix (trimSuffix line ['\r', '\n']) ['\n']).drop 2 =
          buttonPayloadOf a) := by
  constructor
  · simp [handleLine, hb]
  · intro a
    simp only [handleButtonCommand]
    split
    · rename_i hlen
      have hdrop :
          (trimSuffix (trimSuffix line ['\r', '\n']) ['\n']).drop 2 = [] :=
        List.drop_eq_nil_of_le (by omega)
      rw [hdrop]
      cases a <;> simp [buttonPayloadOf]
    · rename_i hlen
      split_ifs with h0 h1 h2
      · rw [h0]; cases a <;> simp [buttonPayloadOf]
      · rw [h1]; cases a <;> simp [buttonPayloadOf]
      · rw [h2]; cases a <;> simp [buttonPayloadOf]
      · cases a <;> simp [buttonPayloadOf, h0, h1, h2]

theorem c10_witness :
    handleLine ⟨false, 1/100⟩ ⟨1, [0]⟩ "#B2\r\n".toList =
      (⟨1, [0]⟩, [], some .nextTrack) ∧
    (handleButtonCommand "#B2\r\n".toList = some .nextTrack ↔
      (trimSuffix (trimSuffix "#B2\r\n".toList ['\r', '\n']) ['\n']).drop 2 =
        buttonPayloadOf .nextTrack) := by
  have h := button_line_dispatch ⟨false, 1/100⟩ ⟨1, [0]⟩ "#B2\r\n".toList
    (by decide)
  exact ⟨by rw [h.1]; decide, h.2 .nextTrack⟩

/-! ## C7: Start guards -/

/-- C7: `Start` fails immediately when a connection is already active,
leaving the state unchanged and spawning no read loop; and when opening
the port fails, the failure is reported, the connected flag stays false
and no read loop is spawned. -/
theorem start_guards (info : ConnectionInfo) (o d : Bool) (s : ConnState) :
    (s.connected = true → start info o d s = (.alreadyActive, s, false)) ∧
    (s.connected = false → o = false →
      (start info o d s).1 = .openFailed ∧
      (start info o d s).2.1.connected = false ∧
      (start info o d s).2.2 = false) := by
  constructor
  · intro h; simp [start, h]
  · intro h ho; subst ho; simp [start, h]

theorem c7_witness :
    start ⟨"COM3", 9600⟩ true true ⟨true, "COM1", 2400⟩ =
      (.alreadyActive, ⟨true, "COM1", 2400⟩, false) ∧
    ((start ⟨"COM3", 9600⟩ false true ⟨false, "COM1", 2400⟩).1 = .openFailed ∧
      (start ⟨"COM3", 9600⟩ false true ⟨false, "COM1", 2400⟩).2.1.connected = false ∧
      (start ⟨"COM3", 9600⟩ false true ⟨false, "COM1", 2400⟩).2.2 = false) :=
  ⟨(start_guards ⟨"COM3", 9600⟩ true true ⟨true, "COM1", 2400⟩).1 rfl,
   (start_guards ⟨"COM3", 9600⟩ false true ⟨false, "COM1", 2400⟩).2 rfl rfl⟩

/-! ## C5: the abbreviation rule -/

theorem collectPass_eq (p : Char → Bool) (name : List Char) :
    ∀ acc : List Char, acc.length ≤ 4 →
    collectPass p name acc = acc ++ (name.filter p).take (4 - acc.length) := by
  induction name with
  | nil => intro acc _; simp [collectPass]
  | cons c rest ih =>
    intro acc hacc
    rw [collectPass]
    by_cases hlt : acc.length < 4
    · rw [if_pos hlt]
      by_cases hp : p c = true
      · rw [if_pos hp, ih (acc ++ [c]) (by simp; omega)]
        rw [List.filter_cons, if_pos hp]
        rw [show 4 - acc.length = (4 - (acc ++ [c]).length) + 1 by simp; omega]
        rw [List.take_succ_cons]
        simp
      · rw [if_neg hp, ih acc (le_of_lt hlt)]
        rw [List.filter_cons, if_neg hp]
    · rw [if_neg hlt]
      rw [show 4 - acc.length = 0 by omega]
      simp

/-- The amended C5: `shortenAppName` implements the abbreviation rule —
up to four consonants in original order, topped up with the name's vowels
in order, falling back to the first four raw characters only when the
collected characters are still fewer than four and the name has at least
four characters (otherwise the collected characters are returned as-is) —
and maps `"chrome"` to `"chrm"`, `"firefox"` to `"frfx"`, `"discord"` to
`"dscr"`, and `""` to `""`. -/
theorem shortenAppName_follows_rule :
    (∀ name : List Char, shortenAppName name = specAbbreviationRule name) ∧
    shortenAppName "chrome".toList = "chrm".toList ∧
    shortenAppName "firefox".toList = "frfx".toList ∧
    shortenAppName "discord".toList = "dscr".toList ∧
    shortenAppName "".toList = "".toList := by
  refine ⟨?_, by decide, by decide, by decide, by decide⟩
  intro name
  simp only [shortenAppName, specAbbreviationRule]
  by_cases h0 : name = []
  · rw [if_pos h0, if_pos h0]
  · rw [if_neg h0, if_neg h0]
    have h1 : collectPass (fun c => !isVowel c) name [] =
        (name.filter fun c => !isVowel c).take 4 := by
      have h := collectPass_eq (fun c => !isVowel c) name [] (by simp)
      simpa using h
    rw [h1]
    have hconslen : ((name.filter fun c => !isVowel c).take 4).length ≤ 4 := by
      simp [List.length_take]
    by_cases h2 : ((name.filter fun c => !isVowel c).take 4).length < 4
    · rw [if_pos h2, collectPass_eq isVowel name _ (le_of_lt h2)]
    · rw [if_neg h2]
      rw [show 4 - ((name.filter fun c => !isVowel c).take 4).length = 0 by
        omega]
      simp

/-- Counterexample to C5 as stated: the code collects the first four
consonants of `"discord"` — `d`, `s`, `c`, `r` — so the label is
`"dscr"`, not the claimed `"dscd"`; and a short name with consonants is
not returned raw (`"ab"` becomes `"ba"`: consonant first, then vowel). -/
theorem c5_counterexample :
    shortenAppName "discord".toList = "dscr".toList ∧
    shortenAppName "discord".toList ≠ "dscd".toList ∧
    shortenAppName "ab".toList = "ba".toList ∧
    shortenAppName "ab".toList ≠ "ab".toList := by
  refine ⟨by decide, by decide, by decide, by decide⟩

/-! ## C6: port probing -/

/-- Whether a read completed without error. -/
def isOkRead : ReadResult → Bool
  | .bytes _ => true
  | .readError => false

/-- The data of a read (`[]` for an error, which is never consulted). -/
def readData : ReadResult → List Char
  | .bytes d => d
  | .readError => []

/-- The bytes a probed port delivers before its first read error: the
concatenation of the error-free prefix of its reads. -/
def okStream (rs : List ReadResult) : List Char :=
  ((rs.takeWhile isOkRead).map readData).flatten

theorem extractLines_no_newline : ∀ l : List Char, '\n' ∉ l →
    extractLines l = ([], l) := by
  intro l
  induction l with
  | nil => intro _; rfl
  | cons c rest ih =>
    intro h
    have hc : ¬(c = '\n') := fun hc => h (hc ▸ List.mem_cons_self c rest)
    have hrest : '\n' ∉ rest := fun hr => h (List.mem_cons_of_mem c hr)
    rw [extractLines, if_neg hc, ih hrest]

theorem extractLines_rem_no_newline : ∀ l : List Char,
    '\n' ∉ (extractLines l).2 := by
  intro l
  induction l with
  | nil => simp [extractLines]
  | cons c rest ih =>
    rw [extractLines]
    by_cases hc : c = '\n'
    · rw [if_pos hc]
      exact ih
    · rw [if_neg hc]
      rcases hr : extractLines rest with ⟨ls, rem⟩
      cases ls with
      | nil =>
        simp only []
        intro hmem
        rcases List.mem_cons.mp hmem with h | h
        · exact hc h.symm
        · rw [hr] at ih; exact ih h
      | cons l0 ls' =>
        simp only []
        rw [hr] at ih
        exact ih

theorem extractLines_append : ∀ x y : List Char,
    extractLines (x ++ y) =
      ((extractLines x).1 ++ (extractLines ((extractLines x).2 ++ y)).1,
        (extractLines ((extractLines x).2 ++ y)).2) := by
  intro x
  induction x with
  | nil => intro y; rfl
  | cons c rest ih =>
    intro y
    by_cases hc : c = '\n'
    · rw [List.cons_append, extractLines, if_pos hc, extractLines, if_pos hc,
        ih y]
      simp
    · rcases hr : extractLines rest with ⟨ls, rem⟩
      rw [List.cons_append, extractLines, if_neg hc, extractLines, if_neg hc,
        ih y, hr]
      cases ls with
      | nil =>
        rcases h2 : extractLines (rem ++ y) with ⟨ls2, rem2⟩
        simp only [List.nil_append, h2]
        rw [List.cons_append, extractLines, if_neg hc, h2]
      | cons l0 ls' => rfl

theorem probeLoop_accepts_iff (reads : List ReadResult) :
    ∀ (acc : List Char) (v : ℕ), '\n' ∉ acc → v < requiredValidLines →
    (probeLoop acc v reads = true ↔
      requiredValidLines ≤ v +
        ((extractLines (acc ++ okStream reads)).1.countP
          matchesExpectedLinePattern)) := by
  induction reads with
  | nil =>
    intro acc v hacc hv
    rw [show okStream [] = [] from rfl, List.append_nil,
      extractLines_no_newline acc hacc]
    simp only [probeLoop, List.countP_nil]
    constructor
    · intro h; exact absurd h (by simp)
    · intro h; omega
  | cons r rest ih =>
    intro acc v hacc hv
    cases r with
    | readError =>
      rw [show okStream (ReadResult.readError :: rest) = [] from rfl,
        List.append_nil, extractLines_no_newline acc hacc]
      simp only [probeLoop, List.countP_nil]
      constructor
      · intro h; exact absurd h (by simp)
      · intro h; omega
    | bytes d =>
      have hstream : okStream (ReadResult.bytes d :: rest) =
          d ++ okStream rest := by
        simp [okStream, List.takeWhile_cons, isOkRead, readData]
      rw [hstream, probeLoop]
      rw [show acc ++ (d ++ okStream rest) = (acc ++ d) ++ okStream rest by
        rw [List.append_assoc]]
      rw [extractLines_append (acc ++ d) (okStream rest)]
      rw [List.countP_append]
      by_cases hdone : requiredValidLines ≤ v +
          (extractLines (acc ++ d)).1.countP matchesExpectedLinePattern
      · rw [if_pos hdone]
        simp only [true_iff]
        omega
      · rw [if_neg hdone]
        rw [ih (extractLines (acc ++ d)).2
          (v + (extractLines (acc ++ d)).1.countP matchesExpectedLinePattern)
          (extractLines_rem_no_newline (acc ++ d)) (by omega)]
        omega

/-- C6: the probe accepts a candidate exactly when it opens and its reads
before the deadline (modelled as the finite list of reads that complete
in time) contain at least `requiredValidLines` (2) complete lines
conforming to the telemetry pattern before any read error; and port
discovery returns the identifier of the first accepted candidate in
enumeration order, or `""` when none is accepted. -/
theorem probe_accepts_iff_two_valid_lines :
    (∀ p : CandidatePort, probePort p = true ↔
      (p.canOpen = true ∧ requiredValidLines ≤
        ((extractLines (okStream p.reads)).1.countP
          matchesExpectedLinePattern))) ∧
    (∀ ports : List CandidatePort,
      findDeejPort ports =
        ((ports.find? probePort).map CandidatePort.name).getD "") := by
  constructor
  · intro p
    unfold probePort
    by_cases hopen : p.canOpen
    · rw [if_neg (by simp [hopen])]
      rw [probeLoop_accepts_iff p.reads [] 0 (by simp) (by simp [requiredValidLines])]
      rw [List.nil_append]
      simp [hopen]
    · rw [if_pos (by simp [hopen] : (!p.canOpen) = true)]
      simp [hopen]
  · intro ports
    induction ports with
    | nil => rfl
    | cons p rest ih =>
      rw [findDeejPort]
      by_cases hp : probePort p = true
      · rw [if_pos hp, List.find?_cons_of_pos rest hp]
        rfl
      · rw [if_neg hp, List.find?_cons_of_neg rest hp, ih]

/-! ## C8: batched LED round trip -/

theorem parseLEDList_nil : ∀ cap : ℕ, parseLEDList cap [] = [] := by
  intro cap
  cases cap <;> rfl

theorem skipPastComma_cons_of_ne (c : Char) (t : List Char) (h : c ≠ ',') :
    skipPastComma (c :: t) = skipPastComma t := by
  unfold skipPastComma
  rw [List.dropWhile_cons, if_pos (by simp [h])]

theorem skipPastComma_comma (t : List Char) :
    skipPastComma (',' :: t) = t := by
  unfold skipPastComma
  rw [List.dropWhile_cons, if_neg (by simp)]
  rfl

theorem parseLEDList_joinComma (v : List Bool) :
    ∀ cap : ℕ,
    parseLEDList cap (joinComma (v.map fun b => if b then ['1'] else ['0'])) =
      v.take cap := by
  induction v with
  | nil => intro cap; cases cap <;> rfl
  | cons b rest ih =>
    intro cap
    cases cap with
    | zero => rfl
    | succ k =>
      cases rest with
      | nil =>
        cases b <;>
          simp [joinComma, parseLEDList, skipPastComma, parseLEDList_nil]
      | cons b2 r2 =>
        have hjoin : joinComma ((b :: b2 :: r2).map
            fun x => if x then ['1'] else ['0']) =
            (if b then '1' else '0') :: ',' ::
              joinComma ((b2 :: r2).map fun x => if x then ['1'] else ['0']) := by
          cases b <;> simp [joinComma]
        rw [hjoin, parseLEDList]
        rw [skipPastComma_cons_of_ne _ _ (by cases b <;> simp),
          skipPastComma_comma]
        rw [ih k, List.take_succ_cons]
        cases b <;> simp

theorem joinComma_mem_chars (v : List Bool) :
    ∀ c ∈ joinComma (v.map fun b => if b then ['1'] else ['0']),
      c = '0' ∨ c = '1' ∨ c = ',' := by
  induction v with
  | nil => intro c hc; simp [joinComma] at hc
  | cons b rest ih =>
    intro c hc
    cases rest with
    | nil =>
      cases b <;> simp_all [joinComma]
    | cons b2 r2 =>
      have hjoin : joinComma ((b :: b2 :: r2).map
          fun x => if x then ['1'] else ['0']) =
          (if b then '1' else '0') :: ',' ::
            joinComma ((b2 :: r2).map fun x => if x then ['1'] else ['0']) := by
        cases b <;> simp [joinComma]
      rw [hjoin] at hc
      rcases List.mem_cons.mp hc with rfl | hc2
      · cases b <;> simp
      · rcases List.mem_cons.mp hc2 with rfl | hc3
        · simp
        · exact ih c hc3

theorem takeWhile_no_term (l : List Char)
    (h : ∀ c ∈ l, c ≠ '\n' ∧ c ≠ '\r') :
    (l ++ ['\n']).takeWhile (fun c => c ≠ '\n' ∧ c ≠ '\r') = l := by
  induction l with
  | nil => simp
  | cons c t ih =>
    have hc := h c (List.mem_cons_self c t)
    rw [List.cons_append, List.takeWhile_cons,
      if_pos (by simp [hc.1, hc.2])]
    rw [ih fun c' hc' => h c' (List.mem_cons_of_mem c hc')]

theorem takeWhile_encode (v : List Bool) :
    (encodeAllLEDStates v).takeWhile (fun c => c ≠ '\n' ∧ c ≠ '\r') =
      '#' :: 'L' :: 'S' :: ':' ::
        joinComma (v.map fun b => if b then ['1'] else ['0']) := by
  unfold encodeAllLEDStates
  rw [List.takeWhile_cons, if_pos (by decide), List.takeWhile_cons,
    if_pos (by decide), List.takeWhile_cons, if_pos (by decide),
    List.takeWhile_cons, if_pos (by decide)]
  rw [takeWhile_no_term _ (fun c hc => by
    rcases joinComma_mem_chars v c hc with rfl | rfl | rfl <;> decide)]

theorem joinComma_length (v : List Bool) :
    (joinComma (v.map fun b => if b then ['1'] else ['0'])).length =
      2 * v.length - 1 := by
  induction v with
  | nil => rfl
  | cons b rest ih =>
    cases rest with
    | nil => cases b <;> rfl
    | cons b2 r2 =>
      have hjoin : joinComma ((b :: b2 :: r2).map
          fun x => if x then ['1'] else ['0']) =
          (if b then '1' else '0') :: ',' ::
            joinComma ((b2 :: r2).map fun x => if x then ['1'] else ['0']) := by
        cases b <;> simp [joinComma]
      rw [hjoin]
      simp only [List.length_cons, ih, List.length_cons]
      omega

theorem deviceFrameLine_encode (v : List Bool) :
    deviceFrameLine (encodeAllLEDStates v) =
      (if v.length ≤ 22 then
        some ('#' :: 'L' :: 'S' :: ':' ::
          joinComma (v.map fun b => if b then ['1'] else ['0']))
       else none) := by
  simp only [deviceFrameLine, takeWhile_encode v]
  have hlen : ('#' :: 'L' :: 'S' :: ':' ::
      joinComma (v.map fun b => if b then ['1'] else ['0'])).length =
      4 + (2 * v.length - 1) := by
    simp [joinComma_length v]
    omega
  by_cases hN : v.length ≤ 22
  · rw [if_pos hN]
    rw [if_pos ⟨rfl, by rw [hlen]; omega⟩]
  · rw [if_neg hN]
    rw [if_neg]
    intro hcontra
    have := hcontra.2
    rw [hlen] at this
    omega

/-- The amended C8: for a boolean vector of length `N ≤ 22` (so that the
encoded command fits the firmware's 48-byte input buffer), encoding as a
batched LED command, framing as the device does, and decoding with the
firmware's `#LS:` parser reproduces exactly the first
`min N NUM_SLIDERS` entries of the vector (the parser writes at most
`NUM_SLIDERS = 4` LED states); for `N > 22` the command overflows the
framer's buffer and is discarded, decoding nothing. In particular the
round trip is the identity precisely for `N ≤ 4`. -/
theorem led_roundtrip_take (v : List Bool) :
    (deviceFrameLine (encodeAllLEDStates v)).bind processLSCommand =
      (if v.length ≤ 22 then some (v.take numSlidersFirmware) else none) := by
  rw [deviceFrameLine_encode v]
  by_cases hN : v.length ≤ 22
  · rw [if_pos hN, if_pos hN]
    show processLSCommand ('#' :: 'L' :: 'S' :: ':' ::
      joinComma (v.map fun b => if b then ['1'] else ['0'])) = _
    show (if '#' = '#' ∧ 'L' = 'L' ∧ 'S' = 'S' ∧ ':' = ':' then
        some (parseLEDList numSlidersFirmware
          (joinComma (v.map fun b => if b then ['1'] else ['0'])))
      else none) = _
    rw [if_pos ⟨rfl, rfl, rfl, rfl⟩, parseLEDList_joinComma v numSlidersFirmware]
  · rw [if_neg hN, if_neg hN]
    rfl

/-- Counterexample to C8 as stated: for `N = 5` the firmware
(`NUM_SLIDERS = 4`) decodes only the first four states, so the round trip
does not reproduce the vector. -/
theorem c8_counterexample :
    (deviceFrameLine (encodeAllLEDStates
      [false, false, false, false, true])).bind processLSCommand =
      some [false, false, false, false] ∧
    (some [false, false, false, false] ≠
      some [false, false, false, false, true]) :=
  ⟨by decide, by decide⟩

end Deej
